import Mathlib

/-!
Shallow embedding of the bounded-buffer producer–consumer core of
`src/lab1/producer_consumer.c`.

The C program serializes every mutation of the ring buffer under a single
mutex (`rb->mtx`), so the lock-protected critical sections are modelled as
sequential functions on an explicit state record.  Condition-variable
operations (`pthread_cond_signal` / `pthread_cond_broadcast` on `not_empty`
and `not_full`) are modelled as an explicit list of wake events emitted by
each operation.  Blocking on a condition variable is modelled by a
`wouldBlock` result that leaves the state unchanged: in the concurrent
program the waiting thread re-checks its predicate after other threads have
moved the state, which corresponds here to retrying the operation on the
new state.

C `int` fields (`size`, `head`, `tail`, `count`) are modelled as `Nat`:
starting from 0 they are only ever set to values in `[0, size)` by
`% size` arithmetic on non-negative operands (where C `%` agrees with
`Nat.mod`), and `count` is only decremented under the caller's
`count > 0` guard, so no reachable value is negative and none can
overflow a C `int` (`size` itself is a validated positive `int`).
The `unsigned long` statistics counters are modelled as `Nat`; the
machine-level wrap-around form of the counter invariant is proved
separately (`mod 2 ^ 64`).
-/

/-- The ring buffer state: the fields of `ring_buffer_t`
(src/lab1/producer_consumer.c, lines 35-49), minus the pthread handles,
which carry no data.  `data` is the `malloc`ed slot array. -/
structure RingBuffer where
  data : Array Int
  size : Nat
  head : Nat
  tail : Nat
  count : Nat
  shutdown : Bool
  produced_total : Nat
  consumed_total : Nat
deriving Repr, DecidableEq

/-- Wake events emitted on the two condition variables. -/
inductive WakeOp where
  | signalNotEmpty
  | signalNotFull
  | broadcastNotEmpty
  | broadcastNotFull
deriving Repr, DecidableEq

/-- `rb_init` (lines 83-97): the slot array is `malloc`ed and left
uninitialized, so the initial memory contents `mem` (of `size` cells) are
an arbitrary parameter. -/
def rb_init (size : Nat) (mem : Array Int) : RingBuffer :=
  { data := mem
    size := size
    head := 0
    tail := 0
    count := 0
    shutdown := false
    produced_total := 0
    consumed_total := 0 }

/-- `rb_enqueue` (lines 106-112).  The C store `rb->data[rb->tail] = value`
is embedded totally: the out-of-bounds case is an explicit `none` branch. -/
def rb_enqueue (rb : RingBuffer) (value : Int) : Option RingBuffer :=
  if h : rb.tail < rb.data.size then
    some { rb with
      data := rb.data.set ⟨rb.tail, h⟩ value
      tail := (rb.tail + 1) % rb.size
      count := rb.count + 1
      produced_total := rb.produced_total + 1 }
  else none

/-- `rb_dequeue` (lines 114-120).  The C load `*out = rb->data[rb->head]`
is embedded totally: the out-of-bounds case is an explicit `none` branch. -/
def rb_dequeue (rb : RingBuffer) : Option (Int × RingBuffer) :=
  if h : rb.head < rb.data.size then
    some (rb.data.get ⟨rb.head, h⟩,
      { rb with
        head := (rb.head + 1) % rb.size
        count := rb.count - 1
        consumed_total := rb.consumed_total + 1 })
  else none

/-- Result of the producer's buffer interaction (one Put attempt). -/
inductive PutResult where
  | success
  | shutdownRejected
  | wouldBlock
deriving Repr, DecidableEq

/-- Result of a consumer's buffer interaction (one Take attempt). -/
inductive TakeResult where
  | success (v : Int)
  | shutdownDrained
  | wouldBlock
deriving Repr, DecidableEq

/-- The producer's critical section, `producer_main` lines 141-154:
check `shutdown` (line 142), wait while full (lines 144-146, modelled as
`wouldBlock`), re-check `shutdown` (line 147), else `rb_enqueue` and
`pthread_cond_signal(&rb->not_empty)` (lines 149, 153). -/
def put (rb : RingBuffer) (value : Int) :
    Option (PutResult × RingBuffer × List WakeOp) :=
  if rb.shutdown then some (PutResult.shutdownRejected, rb, [])
  else if rb.count = rb.size then some (PutResult.wouldBlock, rb, [])
  else
    match rb_enqueue rb value with
    | none => none
    | some rb' => some (PutResult.success, rb', [WakeOp.signalNotEmpty])

/-- A consumer's critical section, `consumer_main` lines 167-189:
wait while `count == 0 && !shutdown` (lines 169-178, modelled as
`wouldBlock`), then if `shutdown && count == 0` exit drained
(lines 180-183), else `rb_dequeue` and
`pthread_cond_signal(&rb->not_full)` (lines 186, 188). -/
def take (rb : RingBuffer) :
    Option (TakeResult × RingBuffer × List WakeOp) :=
  if rb.count = 0 ∧ ¬rb.shutdown then some (TakeResult.wouldBlock, rb, [])
  else if rb.shutdown ∧ rb.count = 0 then some (TakeResult.shutdownDrained, rb, [])
  else
    match rb_dequeue rb with
    | none => none
    | some (v, rb') => some (TakeResult.success v, rb', [WakeOp.signalNotFull])

/-- The shutdown watcher's critical section, `shutdown_watcher` lines
72-79: if `shutdown` is not yet set, set it and broadcast on both
condition variables; otherwise do nothing. -/
def triggerShutdown (rb : RingBuffer) : RingBuffer × List WakeOp :=
  if ¬rb.shutdown then
    ({ rb with shutdown := true },
      [WakeOp.broadcastNotEmpty, WakeOp.broadcastNotFull])
  else (rb, [])

/-- The producer's own shutdown path, `producer_main` lines 130-137:
on observing the stop flag it sets `shutdown` and broadcasts on both
condition variables, unconditionally. -/
def producerTrigger (rb : RingBuffer) : RingBuffer × List WakeOp :=
  ({ rb with shutdown := true },
    [WakeOp.broadcastNotEmpty, WakeOp.broadcastNotFull])

/-- A consumer's in-wait shutdown path, `consumer_main` lines 171-176:
on observing the stop flag while waiting it sets `shutdown` and broadcasts
on both condition variables, unconditionally. -/
def consumerTrigger (rb : RingBuffer) : RingBuffer × List WakeOp :=
  ({ rb with shutdown := true },
    [WakeOp.broadcastNotEmpty, WakeOp.broadcastNotFull])

/-- Mutex operations, used to record whether a code block takes the
buffer's lock. -/
inductive MutexOp where
  | lock
  | unlock
deriving Repr, DecidableEq

/-- The final summary block of `main` (lines 282-285): it reads
`rb.produced_total`, `rb.consumed_total` and `rb.count` directly, after
all threads have been joined.  The third component records the mutex
operations performed by the block: the source takes none. -/
def mainFinalReport (rb : RingBuffer) :
    (Nat × Nat × Nat) × RingBuffer × List MutexOp :=
  ((rb.produced_total, rb.consumed_total, rb.count), rb, [])

/-- The ring invariant of the buffer, relative to the configured capacity
`size` (the validated `BufferSize` command-line argument, a positive C
`int`). -/
def WellFormed (size : Nat) (rb : RingBuffer) : Prop :=
  rb.size = size ∧
  rb.data.size = size ∧
  0 < size ∧
  size < 2 ^ 31 ∧
  rb.head < size ∧
  rb.tail < size ∧
  rb.count ≤ size ∧
  rb.tail = (rb.head + rb.count) % size

instance (size : Nat) (rb : RingBuffer) : Decidable (WellFormed size rb) := by
  unfold WellFormed; infer_instance

/-- States of the buffer reachable from initialization under the
serialized critical sections of the program: the producer's Put attempt,
a consumer's Take attempt, and the three shutdown-trigger paths
(watcher, producer, consumer). -/
inductive Reachable (size : Nat) : RingBuffer → Prop where
  | init (mem : Array Int) (hm : mem.size = size) (hpos : 0 < size)
      (hbound : size < 2 ^ 31) :
      Reachable size (rb_init size mem)
  | putStep (rb : RingBuffer) (v : Int) (r : PutResult) (rb' : RingBuffer)
      (ws : List WakeOp) :
      Reachable size rb → put rb v = some (r, rb', ws) → Reachable size rb'
  | takeStep (rb : RingBuffer) (r : TakeResult) (rb' : RingBuffer)
      (ws : List WakeOp) :
      Reachable size rb → take rb = some (r, rb', ws) → Reachable size rb'
  | shutdownStep (rb : RingBuffer) :
      Reachable size rb → Reachable size (triggerShutdown rb).1
  | producerTriggerStep (rb : RingBuffer) :
      Reachable size rb → Reachable size (producerTrigger rb).1
  | consumerTriggerStep (rb : RingBuffer) :
      Reachable size rb → Reachable size (consumerTrigger rb).1

/-- The logical queue contents: the `count` occupied slots starting at
`head`, in FIFO order. -/
def queueList (rb : RingBuffer) : List Int :=
  (List.range rb.count).map (fun i => rb.data.getD ((rb.head + i) % rb.size) 0)

/-- One serialized operation of a run: a Put attempt with a value, a Take
attempt, or one of the shutdown-trigger paths. -/
inductive Op where
  | put (v : Int)
  | take
  | trigger
  | ptrigger
  | ctrigger
deriving Repr, DecidableEq

/-- One step of a serialized run.  Returns the new state together with the
values accepted by a successful Put and returned by a successful Take in
this step. -/
def runStep (rb : RingBuffer) : Op → Option (RingBuffer × List Int × List Int)
  | Op.put v =>
    match put rb v with
    | none => none
    | some (PutResult.success, rb', _) => some (rb', [v], [])
    | some (PutResult.shutdownRejected, rb', _) => some (rb', [], [])
    | some (PutResult.wouldBlock, rb', _) => some (rb', [], [])
  | Op.take =>
    match take rb with
    | none => none
    | some (TakeResult.success v, rb', _) => some (rb', [], [v])
    | some (TakeResult.shutdownDrained, rb', _) => some (rb', [], [])
    | some (TakeResult.wouldBlock, rb', _) => some (rb', [], [])
  | Op.trigger => some ((triggerShutdown rb).1, [], [])
  | Op.ptrigger => some ((producerTrigger rb).1, [], [])
  | Op.ctrigger => some ((consumerTrigger rb).1, [], [])

/-- A serialized run of interleaved operations, accumulating the list of
values accepted by successful Puts and the list of values returned by
successful Takes. -/
def run (rb : RingBuffer) : List Op → Option (RingBuffer × List Int × List Int)
  | [] => some (rb, [], [])
  | o :: ops =>
    match runStep rb o with
    | none => none
    | some (rb', ps, ts) =>
      match run rb' ops with
      | none => none
      | some (rb'', ps', ts') => some (rb'', ps ++ ps', ts ++ ts')

/-- Largest value of a C `int`, the type of the producer's `value`
counter (`producer_main`, line 126). -/
def INT_MAX : Int := 2147483647

/-- One C increment of a signed `int`: `value++` (`producer_main`,
line 151).  Signed overflow at `INT_MAX` is undefined behavior, embedded
as the explicit `none` branch. -/
def intInc (v : Int) : Option Int :=
  if v = INT_MAX then none else some (v + 1)

/-- The producer's `value` counter after `n` successful Puts: it starts
at 1 (`producer_main`, line 126) and is incremented once per success
(line 151). -/
def producerValueAfter : Nat → Option Int
  | 0 => some 1
  | n + 1 => (producerValueAfter n).bind intInc

lemma wf_rb_init {size : Nat} {mem : Array Int} (hm : mem.size = size)
    (hpos : 0 < size) (hbound : size < 2 ^ 31) :
    WellFormed size (rb_init size mem) := by
  refine ⟨rfl, hm, hpos, hbound, hpos, hpos, Nat.zero_le _, ?_⟩
  simp [rb_init, Nat.mod_eq_of_lt hpos]

lemma wf_rb_enqueue {size : Nat} {rb rb' : RingBuffer} {v : Int}
    (hwf : WellFormed size rb) (hcount : rb.count < size)
    (h : rb_enqueue rb v = some rb') : WellFormed size rb' := by
  obtain ⟨hsz, hdata, hpos, hbound, hhead, htail, hcnt, hring⟩ := hwf
  unfold rb_enqueue at h
  rw [dif_pos (by omega)] at h
  cases h
  unfold WellFormed
  dsimp only
  refine ⟨hsz, by simpa using hdata, hpos, hbound, hhead, ?_, by omega, ?_⟩
  · exact hsz ▸ Nat.mod_lt _ (hsz ▸ hpos)
  · rw [hsz, hring, Nat.mod_add_mod]
    congr 1

lemma wf_rb_dequeue {size : Nat} {rb rb' : RingBuffer} {v : Int}
    (hwf : WellFormed size rb) (hcount : rb.count ≠ 0)
    (h : rb_dequeue rb = some (v, rb')) : WellFormed size rb' := by
  obtain ⟨hsz, hdata, hpos, hbound, hhead, htail, hcnt, hring⟩ := hwf
  unfold rb_dequeue at h
  rw [dif_pos (by omega)] at h
  cases h
  unfold WellFormed
  dsimp only
  refine ⟨hsz, hdata, hpos, hbound, ?_, htail, by omega, ?_⟩
  · exact hsz ▸ Nat.mod_lt _ (hsz ▸ hpos)
  · rw [hsz, Nat.mod_add_mod, hring]
    congr 1
    omega

lemma wf_put {size : Nat} {rb rb' : RingBuffer} {v : Int} {r : PutResult}
    {ws : List WakeOp} (hwf : WellFormed size rb)
    (h : put rb v = some (r, rb', ws)) : WellFormed size rb' := by
  unfold put at h
  split at h
  · cases h; exact hwf
  · split at h
    · cases h; exact hwf
    · rename_i hsd hfull
      rcases heq : rb_enqueue rb v with _ | rbe
      · rw [heq] at h; cases h
      · rw [heq] at h
        cases h
        refine wf_rb_enqueue hwf ?_ heq
        have h1 := hwf.1
        have h2 := hwf.2.2.2.2.2.2.1
        omega

lemma wf_take {size : Nat} {rb rb' : RingBuffer} {r : TakeResult}
    {ws : List WakeOp} (hwf : WellFormed size rb)
    (h : take rb = some (r, rb', ws)) : WellFormed size rb' := by
  unfold take at h
  split at h
  · cases h; exact hwf
  · split at h
    · cases h; exact hwf
    · rename_i hrun hdr
      rcases heq : rb_dequeue rb with _ | ⟨v, rbd⟩
      · rw [heq] at h; cases h
      · rw [heq] at h
        cases h
        refine wf_rb_dequeue hwf ?_ heq
        intro hc0
        rcases Decidable.em rb.shutdown with hs | hs
        · exact hdr ⟨hs, hc0⟩
        · exact hrun ⟨hc0, hs⟩

lemma wf_triggerShutdown {size : Nat} {rb : RingBuffer}
    (hwf : WellFormed size rb) : WellFormed size (triggerShutdown rb).1 := by
  unfold triggerShutdown
  split
  · exact ⟨hwf.1, hwf.2.1, hwf.2.2.1, hwf.2.2.2.1, hwf.2.2.2.2.1,
      hwf.2.2.2.2.2.1, hwf.2.2.2.2.2.2.1, hwf.2.2.2.2.2.2.2⟩
  · exact hwf

lemma wf_producerTrigger {size : Nat} {rb : RingBuffer}
    (hwf : WellFormed size rb) : WellFormed size (producerTrigger rb).1 :=
  ⟨hwf.1, hwf.2.1, hwf.2.2.1, hwf.2.2.2.1, hwf.2.2.2.2.1,
    hwf.2.2.2.2.2.1, hwf.2.2.2.2.2.2.1, hwf.2.2.2.2.2.2.2⟩

lemma wf_consumerTrigger {size : Nat} {rb : RingBuffer}
    (hwf : WellFormed size rb) : WellFormed size (consumerTrigger rb).1 :=
  ⟨hwf.1, hwf.2.1, hwf.2.2.1, hwf.2.2.2.1, hwf.2.2.2.2.1,
    hwf.2.2.2.2.2.1, hwf.2.2.2.2.2.2.1, hwf.2.2.2.2.2.2.2⟩

lemma reachable_wf {size : Nat} {rb : RingBuffer} (h : Reachable size rb) :
    WellFormed size rb := by
  induction h with
  | init mem hm hpos hbound => exact wf_rb_init hm hpos hbound
  | putStep rb v r rb' ws _ hstep ih => exact wf_put ih hstep
  | takeStep rb r rb' ws _ hstep ih => exact wf_take ih hstep
  | shutdownStep rb _ ih => exact wf_triggerShutdown ih
  | producerTriggerStep rb _ ih => exact wf_producerTrigger ih
  | consumerTriggerStep rb _ ih => exact wf_consumerTrigger ih

lemma getD_eq_get (a : Array Int) (i : Nat) (h : i < a.size) :
    a.getD i 0 = a.get ⟨i, h⟩ := dif_pos h

lemma getD_set_self (a : Array Int) (i : Nat) (h : i < a.size) (v : Int) :
    (a.set ⟨i, h⟩ v).getD i 0 = v := by
  unfold Array.getD
  rw [dif_pos (by simpa using h)]
  exact Array.get_set_eq a ⟨i, h⟩ v

lemma getD_set_other (a : Array Int) (i j : Nat) (h : i < a.size) (v : Int)
    (hj : j < a.size) (hne : i ≠ j) :
    (a.set ⟨i, h⟩ v).getD j 0 = a.getD j 0 := by
  unfold Array.getD
  rw [dif_pos (by simpa using hj), dif_pos hj]
  exact Array.get_set_ne a ⟨i, h⟩ v hj hne

lemma mod_add_inj {n a b c : Nat} (ha : a < n) (hb : b < n)
    (h : (c + a) % n = (c + b) % n) : a = b := by
  have hab : a ≡ b [MOD n] := Nat.ModEq.add_left_cancel' c h
  unfold Nat.ModEq at hab
  rwa [Nat.mod_eq_of_lt ha, Nat.mod_eq_of_lt hb] at hab

lemma queueList_enqueue {size : Nat} {rb rb' : RingBuffer} {v : Int}
    (hwf : WellFormed size rb) (hcount : rb.count < size)
    (h : rb_enqueue rb v = some rb') :
    queueList rb' = queueList rb ++ [v] := by
  obtain ⟨hsz, hdata, hpos, hbound, hhead, htail, hcnt, hring⟩ := hwf
  unfold rb_enqueue at h
  rw [dif_pos (by omega)] at h
  cases h
  unfold queueList
  dsimp only
  rw [List.range_succ, List.map_append]
  congr 1
  · apply List.map_congr_left
    intro i hi
    rw [List.mem_range] at hi
    apply getD_set_other
    · rw [hdata, hsz]
      exact Nat.mod_lt _ hpos
    · rw [hring, hsz]
      intro heq
      exact absurd (mod_add_inj hcount (by omega) heq) (by omega)
  · simp only [List.map_cons, List.map_nil]
    have hidx : (rb.head + rb.count) % rb.size = rb.tail := by
      rw [hsz, ← hring]
    rw [hidx]
    rw [getD_set_self]

lemma queueList_dequeue {size : Nat} {rb rb' : RingBuffer} {v : Int}
    (hwf : WellFormed size rb) (hcount : rb.count ≠ 0)
    (h : rb_dequeue rb = some (v, rb')) :
    queueList rb = v :: queueList rb' := by
  obtain ⟨hsz, hdata, hpos, hbound, hhead, htail, hcnt, hring⟩ := hwf
  unfold rb_dequeue at h
  rw [dif_pos (by omega)] at h
  cases h
  unfold queueList
  dsimp only
  rw [show rb.count = (rb.count - 1) + 1 by omega, List.range_succ_eq_map,
    List.map_cons, List.map_map]
  congr 1
  · rw [Nat.add_zero, hsz, Nat.mod_eq_of_lt hhead, getD_eq_get rb.data rb.head (by omega)]
  · apply List.map_congr_left
    intro i hi
    simp only [Function.comp_apply]
    rw [Nat.mod_add_mod]
    congr 2
    omega

lemma queueList_empty {rb : RingBuffer} (h : rb.count = 0) :
    queueList rb = [] := by
  unfold queueList
  rw [h]
  rfl

lemma rb_enqueue_fields {rb rb' : RingBuffer} {v : Int}
    (h : rb_enqueue rb v = some rb') :
    rb'.size = rb.size ∧ rb'.head = rb.head ∧
    rb'.tail = (rb.tail + 1) % rb.size ∧ rb'.count = rb.count + 1 ∧
    rb'.shutdown = rb.shutdown ∧
    rb'.produced_total = rb.produced_total + 1 ∧
    rb'.consumed_total = rb.consumed_total := by
  unfold rb_enqueue at h
  split at h
  · cases h; exact ⟨rfl, rfl, rfl, rfl, rfl, rfl, rfl⟩
  · cases h

lemma rb_dequeue_fields {rb rb' : RingBuffer} {v : Int}
    (h : rb_dequeue rb = some (v, rb')) :
    rb'.size = rb.size ∧ rb'.head = (rb.head + 1) % rb.size ∧
    rb'.tail = rb.tail ∧ rb'.count = rb.count - 1 ∧
    rb'.shutdown = rb.shutdown ∧
    rb'.produced_total = rb.produced_total ∧
    rb'.consumed_total = rb.consumed_total + 1 ∧
    rb'.data = rb.data := by
  unfold rb_dequeue at h
  split at h
  · cases h; exact ⟨rfl, rfl, rfl, rfl, rfl, rfl, rfl, rfl⟩
  · cases h

lemma put_inv {rb : RingBuffer} {v : Int} {r : PutResult} {rbp : RingBuffer}
    {ws : List WakeOp} (h : put rb v = some (r, rbp, ws)) :
    (r = PutResult.shutdownRejected ∧ rb.shutdown = true ∧ rbp = rb ∧ ws = []) ∨
    (r = PutResult.wouldBlock ∧ rb.shutdown = false ∧ rb.count = rb.size ∧
      rbp = rb ∧ ws = []) ∨
    (r = PutResult.success ∧ rb.shutdown = false ∧ rb.count ≠ rb.size ∧
      rb_enqueue rb v = some rbp ∧ ws = [WakeOp.signalNotEmpty]) := by
  unfold put at h
  split at h
  · rename_i hsd
    cases h
    exact Or.inl ⟨rfl, hsd, rfl, rfl⟩
  · rename_i hsd
    split at h
    · rename_i hfull
      cases h
      exact Or.inr (Or.inl ⟨rfl, Bool.not_eq_true _ ▸ eq_false_of_ne_true hsd, hfull, rfl, rfl⟩)
    · rename_i hfull
      rcases heq : rb_enqueue rb v with _ | rbe
      · rw [heq] at h; cases h
      · rw [heq] at h
        cases h
        exact Or.inr (Or.inr ⟨rfl, Bool.not_eq_true _ ▸ eq_false_of_ne_true hsd,
          hfull, rfl, rfl⟩)

lemma take_inv {rb : RingBuffer} {r : TakeResult} {rbt : RingBuffer}
    {ws : List WakeOp} (h : take rb = some (r, rbt, ws)) :
    (r = TakeResult.wouldBlock ∧ rb.count = 0 ∧ rb.shutdown = false ∧
      rbt = rb ∧ ws = []) ∨
    (r = TakeResult.shutdownDrained ∧ rb.shutdown = true ∧ rb.count = 0 ∧
      rbt = rb ∧ ws = []) ∨
    (∃ v, r = TakeResult.success v ∧ rb.count ≠ 0 ∧
      rb_dequeue rb = some (v, rbt) ∧ ws = [WakeOp.signalNotFull]) := by
  unfold take at h
  split at h
  · rename_i hrun
    cases h
    exact Or.inl ⟨rfl, hrun.1, eq_false_of_ne_true hrun.2, rfl, rfl⟩
  · rename_i hrun
    split at h
    · rename_i hdr
      cases h
      exact Or.inr (Or.inl ⟨rfl, hdr.1, hdr.2, rfl, rfl⟩)
    · rename_i hdr
      rcases heq : rb_dequeue rb with _ | ⟨v, rbd⟩
      · rw [heq] at h; cases h
      · rw [heq] at h
        cases h
        refine Or.inr (Or.inr ⟨v, rfl, ?_, rfl, rfl⟩)
        intro hc0
        rcases Decidable.em (rb.shutdown = true) with hs | hs
        · exact hdr ⟨hs, hc0⟩
        · exact hrun ⟨hc0, hs⟩

lemma counters_reachable {size : Nat} {rb : RingBuffer}
    (h : Reachable size rb) :
    rb.produced_total = rb.consumed_total + rb.count := by
  induction h with
  | init mem hm hpos hbound => rfl
  | putStep rb v r rb' ws _ hstep ih =>
    rcases put_inv hstep with ⟨_, _, hrb, _⟩ | ⟨_, _, _, hrb, _⟩ |
      ⟨_, _, _, henq, _⟩
    · rw [hrb]; exact ih
    · rw [hrb]; exact ih
    · obtain ⟨_, _, _, hc, _, hp, hco⟩ := rb_enqueue_fields henq
      omega
  | takeStep rb r rb' ws _ hstep ih =>
    rcases take_inv hstep with ⟨_, _, _, hrb, _⟩ | ⟨_, _, _, hrb, _⟩ |
      ⟨v, _, hc0, hdeq, _⟩
    · rw [hrb]; exact ih
    · rw [hrb]; exact ih
    · obtain ⟨_, _, _, hc, _, hp, hco, _⟩ := rb_dequeue_fields hdeq
      omega
  | shutdownStep rb _ ih =>
    unfold triggerShutdown
    split
    · exact ih
    · exact ih
  | producerTriggerStep rb _ ih => exact ih
  | consumerTriggerStep rb _ ih => exact ih

lemma unsigned_sub_mod {P C count M : Nat} (hM : 0 < M) (hcnt : count < M)
    (h : P = C + count) : (P % M + (M - C % M)) % M = count := by
  have hr : C % M < M := Nat.mod_lt _ hM
  have h1 : P % M = (C % M + count) % M := by
    rw [h]
    conv_lhs => rw [← Nat.div_add_mod C M]
    rw [Nat.add_assoc, Nat.mul_add_mod]
  rw [h1, Nat.mod_add_mod]
  have h2 : C % M + count + (M - C % M) = count + M := by omega
  rw [h2, Nat.add_mod_right, Nat.mod_eq_of_lt hcnt]

lemma runStep_conserves {size : Nat} {rb : RingBuffer} {o : Op}
    {rb' : RingBuffer} {ps ts : List Int} (hwf : WellFormed size rb)
    (h : runStep rb o = some (rb', ps, ts)) :
    WellFormed size rb' ∧ queueList rb ++ ps = ts ++ queueList rb' := by
  cases o with
  | put v =>
    simp only [runStep] at h
    rcases hput : put rb v with _ | ⟨r, rbp, ws⟩
    · rw [hput] at h; cases h
    · rw [hput] at h
      rcases put_inv hput with ⟨hr, _, hrb, _⟩ | ⟨hr, _, _, hrb, _⟩ |
        ⟨hr, _, hfull, henq, _⟩
      · subst hr; cases h; subst hrb; exact ⟨hwf, by simp⟩
      · subst hr; cases h; subst hrb; exact ⟨hwf, by simp⟩
      · subst hr
        cases h
        have hcount : rb.count < size := by
          have h1 := hwf.1
          have h2 := hwf.2.2.2.2.2.2.1
          omega
        exact ⟨wf_rb_enqueue hwf hcount henq,
          by rw [queueList_enqueue hwf hcount henq]; simp⟩
  | take =>
    simp only [runStep] at h
    rcases htake : take rb with _ | ⟨r, rbt, ws⟩
    · rw [htake] at h; cases h
    · rw [htake] at h
      rcases take_inv htake with ⟨hr, _, _, hrb, _⟩ | ⟨hr, _, _, hrb, _⟩ |
        ⟨v, hr, hc0, hdeq, _⟩
      · subst hr; cases h; subst hrb; exact ⟨hwf, by simp⟩
      · subst hr; cases h; subst hrb; exact ⟨hwf, by simp⟩
      · subst hr
        cases h
        exact ⟨wf_rb_dequeue hwf hc0 hdeq,
          by rw [queueList_dequeue hwf hc0 hdeq]; simp⟩
  | trigger =>
    simp only [runStep] at h
    cases h
    refine ⟨wf_triggerShutdown hwf, ?_⟩
    unfold queueList triggerShutdown
    split <;> simp
  | ptrigger =>
    simp only [runStep] at h
    cases h
    exact ⟨wf_producerTrigger hwf, by unfold queueList producerTrigger; simp⟩
  | ctrigger =>
    simp only [runStep] at h
    cases h
    exact ⟨wf_consumerTrigger hwf, by unfold queueList consumerTrigger; simp⟩

lemma run_conserves {size : Nat} :
    ∀ (ops : List Op) (rb rb' : RingBuffer) (ps ts : List Int),
    WellFormed size rb → run rb ops = some (rb', ps, ts) →
    WellFormed size rb' ∧ queueList rb ++ ps = ts ++ queueList rb' := by
  intro ops
  induction ops with
  | nil =>
    intro rb rb' ps ts hwf h
    unfold run at h
    cases h
    exact ⟨hwf, by simp⟩
  | cons o ops ih =>
    intro rb rb' ps ts hwf h
    unfold run at h
    rcases hstep : runStep rb o with _ | ⟨rbm, ps1, ts1⟩
    · rw [hstep] at h; cases h
    · rw [hstep] at h
      dsimp only at h
      rcases hrun : run rbm ops with _ | ⟨rbf, ps2, ts2⟩
      · rw [hrun] at h; cases h
      · rw [hrun] at h
        cases h
        obtain ⟨hwf1, heq1⟩ := runStep_conserves hwf hstep
        obtain ⟨hwf2, heq2⟩ := ih rbm rb' ps2 ts2 hwf1 hrun
        refine ⟨hwf2, ?_⟩
        rw [← List.append_assoc, heq1, List.append_assoc, heq2,
          ← List.append_assoc]

lemma producerValueAfter_closed {n : Nat} (h : n ≤ 2 ^ 31 - 2) :
    producerValueAfter n = some ((n : Int) + 1) := by
  induction n with
  | zero => rfl
  | succ k ih =>
    have hk := ih (by omega)
    unfold producerValueAfter
    rw [hk]
    show intInc ((k : Int) + 1) = some (((k + 1 : Nat) : Int) + 1)
    unfold intInc
    rw [if_neg (show ¬((k : Int) + 1 = INT_MAX) from by unfold INT_MAX; omega)]
    congr 1

lemma producerValueAfter_overflow : producerValueAfter (2 ^ 31 - 1) = none := by
  have h1 : producerValueAfter (2 ^ 31 - 2) =
      some (((2 ^ 31 - 2 : Nat) : Int) + 1) :=
    producerValueAfter_closed (Nat.le_refl _)
  norm_num at h1
  have h2 : (2 ^ 31 - 1 : Nat) = (2 ^ 31 - 2) + 1 := by norm_num
  rw [h2]
  unfold producerValueAfter
  norm_num
  rw [h1]
  simp [intInc, INT_MAX]

lemma set_eq_setD (a : Array Int) (i : Nat) (h : i < a.size) (v : Int) :
    a.set ⟨i, h⟩ v = a.setD i v := by
  unfold Array.setD
  rw [dif_pos h]

/-- Claim C1: Take never discards buffered items across shutdown.  In any
well-formed buffer state, if `shutdown` is set and `count = 0` the Take
critical section returns shutdown-drained with no value, emits no wake,
and leaves the state unchanged; in every other state in which Take
returns (that is, whenever `count ≠ 0`, including `shutdown` true with
items remaining) it reads the value at `head`, advances
`head = (head+1) mod capacity`, decrements `count`, increments
`consumed_total`, signals one waiter on the not-full condition, and
returns the value with success. -/
theorem take_drains_buffered_items (size : Nat) (rb : RingBuffer)
    (hwf : WellFormed size rb) :
    (rb.shutdown = true ∧ rb.count = 0 →
      take rb = some (TakeResult.shutdownDrained, rb, [])) ∧
    (rb.count ≠ 0 →
      take rb = some (TakeResult.success (rb.data.getD rb.head 0),
        { rb with
          head := (rb.head + 1) % rb.size
          count := rb.count - 1
          consumed_total := rb.consumed_total + 1 },
        [WakeOp.signalNotFull])) := by
  obtain ⟨hsz, hdata, hpos, hbound, hhead, htail, hcnt, hring⟩ := hwf
  constructor
  · rintro ⟨hsd, hc0⟩
    unfold take
    rw [if_neg (by simp [hsd]), if_pos ⟨hsd, hc0⟩]
  · intro hc
    unfold take
    rw [if_neg (fun h => hc h.1), if_neg (fun h => hc h.2)]
    unfold rb_dequeue
    rw [dif_pos (show rb.head < rb.data.size by omega)]
    rw [getD_eq_get rb.data rb.head (by omega)]

theorem take_drains_buffered_items_witness :
    take (RingBuffer.mk #[5, 7] 2 0 1 1 true 3 2) =
      some (TakeResult.success 5, RingBuffer.mk #[5, 7] 2 1 1 0 true 3 3,
        [WakeOp.signalNotFull]) :=
  (take_drains_buffered_items 2 (RingBuffer.mk #[5, 7] 2 0 1 1 true 3 2)
    (by decide)).2 (by decide)

/-- Claim C2: Put is atomic on rejection.  In every buffer state with
`shutdown` set (whether observed on entry, line 142, or after blocking,
line 147), the Put critical section returns shutdown-rejected, emits no
wake, and returns the state unchanged in every field. -/
theorem put_rejected_after_shutdown (rb : RingBuffer) (v : Int)
    (h : rb.shutdown = true) :
    put rb v = some (PutResult.shutdownRejected, rb, []) := by
  unfold put
  rw [if_pos h]

theorem put_rejected_after_shutdown_witness :
    put (RingBuffer.mk #[0] 1 0 0 0 true 5 5) 9 =
      some (PutResult.shutdownRejected, RingBuffer.mk #[0] 1 0 0 0 true 5 5,
        []) :=
  put_rejected_after_shutdown (RingBuffer.mk #[0] 1 0 0 0 true 5 5) 9 rfl

/-- Claim C3: Ring invariant.  Every state reachable from `rb_init`
under the Put, Take, and shutdown-trigger critical sections satisfies
`0 ≤ count ≤ capacity`, `head, tail ∈ [0, capacity)`, and
`tail = (head + count) mod capacity`. -/
theorem ring_invariant_reachable (size : Nat) (rb : RingBuffer)
    (h : Reachable size rb) :
    0 ≤ rb.count ∧ rb.count ≤ size ∧ rb.head < size ∧ rb.tail < size ∧
      rb.tail = (rb.head + rb.count) % size := by
  have hwf := reachable_wf h
  exact ⟨Nat.zero_le _, hwf.2.2.2.2.2.2.1, hwf.2.2.2.2.1, hwf.2.2.2.2.2.1,
    hwf.2.2.2.2.2.2.2⟩

theorem ring_invariant_reachable_witness :
    0 ≤ (RingBuffer.mk #[1, 0] 2 0 1 1 false 1 0).count ∧
    (RingBuffer.mk #[1, 0] 2 0 1 1 false 1 0).count ≤ 2 ∧
    (RingBuffer.mk #[1, 0] 2 0 1 1 false 1 0).head < 2 ∧
    (RingBuffer.mk #[1, 0] 2 0 1 1 false 1 0).tail < 2 ∧
    (RingBuffer.mk #[1, 0] 2 0 1 1 false 1 0).tail =
      ((RingBuffer.mk #[1, 0] 2 0 1 1 false 1 0).head +
        (RingBuffer.mk #[1, 0] 2 0 1 1 false 1 0).count) % 2 :=
  ring_invariant_reachable 2 (RingBuffer.mk #[1, 0] 2 0 1 1 false 1 0)
    (Reachable.putStep (rb_init 2 #[0, 0]) 1 PutResult.success
      (RingBuffer.mk #[1, 0] 2 0 1 1 false 1 0) [WakeOp.signalNotEmpty]
      (Reachable.init #[0, 0] rfl (by decide) (by decide)) (by decide))

/-- Claim C4: Counter invariant.  In every reachable state (every state
observable under the lock), `produced_total - consumed_total = count`,
both exactly over `Nat` and in the wrap-around form computed on the
`unsigned long` fields; moreover a successful Put increments
`produced_total` exactly once leaving `consumed_total` unchanged, and a
successful Take increments `consumed_total` exactly once leaving
`produced_total` unchanged. -/
theorem counter_invariant_reachable (size : Nat) (rb : RingBuffer)
    (h : Reachable size rb) :
    rb.produced_total = rb.consumed_total + rb.count ∧
    (rb.produced_total % 2 ^ 64 + (2 ^ 64 - rb.consumed_total % 2 ^ 64))
        % 2 ^ 64 = rb.count ∧
    (∀ (v : Int) (rb' : RingBuffer) (ws : List WakeOp),
      put rb v = some (PutResult.success, rb', ws) →
      rb'.produced_total = rb.produced_total + 1 ∧
      rb'.consumed_total = rb.consumed_total) ∧
    (∀ (v : Int) (rb' : RingBuffer) (ws : List WakeOp),
      take rb = some (TakeResult.success v, rb', ws) →
      rb'.consumed_total = rb.consumed_total + 1 ∧
      rb'.produced_total = rb.produced_total) := by
  have hmain := counters_reachable h
  have hwf := reachable_wf h
  refine ⟨hmain, ?_, ?_, ?_⟩
  · refine unsigned_sub_mod (by norm_num) ?_ hmain
    have h1 := hwf.2.2.2.2.2.2.1
    have h2 := hwf.2.2.2.1
    omega
  · intro v rb' ws hput
    rcases put_inv hput with ⟨hr, _⟩ | ⟨hr, _⟩ | ⟨_, _, _, henq, _⟩
    · simp at hr
    · simp at hr
    · obtain ⟨_, _, _, _, _, hp, hco⟩ := rb_enqueue_fields henq
      exact ⟨hp, hco⟩
  · intro v rb' ws htake
    rcases take_inv htake with ⟨hr, _⟩ | ⟨hr, _⟩ | ⟨w, hr, _, hdeq, _⟩
    · simp at hr
    · simp at hr
    · obtain ⟨_, _, _, _, _, hp, hco, _⟩ := rb_dequeue_fields hdeq
      exact ⟨hco, hp⟩

theorem counter_invariant_reachable_witness :
    (RingBuffer.mk #[1, 0] 2 0 1 1 false 1 0).produced_total =
      (RingBuffer.mk #[1, 0] 2 0 1 1 false 1 0).consumed_total +
        (RingBuffer.mk #[1, 0] 2 0 1 1 false 1 0).count :=
  (counter_invariant_reachable 2 (RingBuffer.mk #[1, 0] 2 0 1 1 false 1 0)
    (Reachable.putStep (rb_init 2 #[0, 0]) 1 PutResult.success
      (RingBuffer.mk #[1, 0] 2 0 1 1 false 1 0) [WakeOp.signalNotEmpty]
      (Reachable.init #[0, 0] rfl (by decide) (by decide)) (by decide))).1

/-- Claim C5: Successful Put postcondition.  In every well-formed buffer
state with `count < capacity` and `shutdown` false, the Put critical
section writes the value into the slot at `tail`, advances
`tail = (tail+1) mod capacity`, increments `count` and `produced_total`
by one, signals exactly one waiter on the not-empty condition (a single
signal, not a broadcast), returns success, and changes no other field. -/
theorem put_success_postcondition (size : Nat) (rb : RingBuffer) (v : Int)
    (hwf : WellFormed size rb) (hcount : rb.count < size)
    (hsd : rb.shutdown = false) :
    put rb v = some (PutResult.success,
      { rb with
        data := rb.data.setD rb.tail v
        tail := (rb.tail + 1) % rb.size
        count := rb.count + 1
        produced_total := rb.produced_total + 1 },
      [WakeOp.signalNotEmpty]) := by
  obtain ⟨hsz, hdata, hpos, hbound, hhead, htail, hcnt, hring⟩ := hwf
  unfold put
  rw [if_neg (by simp [hsd]), if_neg (by omega)]
  unfold rb_enqueue
  rw [dif_pos (show rb.tail < rb.data.size by omega)]
  rw [set_eq_setD rb.data rb.tail (by omega) v]

theorem put_success_postcondition_witness :
    put (RingBuffer.mk #[9, 9] 2 0 0 0 false 0 0) 7 =
      some (PutResult.success, RingBuffer.mk #[7, 9] 2 0 1 1 false 1 0,
        [WakeOp.signalNotEmpty]) :=
  put_success_postcondition 2 (RingBuffer.mk #[9, 9] 2 0 0 0 false 0 0) 7
    (by decide) (by decide) rfl

/-- Claim C6: TriggerShutdown is idempotent.  If `shutdown` is false the
watcher's trigger sets it and broadcasts to all waiters on both
wait-conditions; if `shutdown` is already true it is a no-op.  After any
of the three trigger paths (watcher, producer, consumer) `shutdown` is
true, and on a state with `shutdown` already true each of the three
paths leaves the buffer state unchanged — so calling a trigger twice,
from any task, has the same observable effect on the buffer state as
calling it once. -/
theorem triggerShutdown_idempotent (rb : RingBuffer) :
    (rb.shutdown = false → triggerShutdown rb =
      ({ rb with shutdown := true },
        [WakeOp.broadcastNotEmpty, WakeOp.broadcastNotFull])) ∧
    (rb.shutdown = true → triggerShutdown rb = (rb, [])) ∧
    ((triggerShutdown rb).1.shutdown = true ∧
      (producerTrigger rb).1.shutdown = true ∧
      (consumerTrigger rb).1.shutdown = true) ∧
    (∀ rb' : RingBuffer, rb'.shutdown = true →
      (triggerShutdown rb').1 = rb' ∧ (producerTrigger rb').1 = rb' ∧
        (consumerTrigger rb').1 = rb') := by
  refine ⟨?_, ?_, ⟨?_, rfl, rfl⟩, ?_⟩
  · intro hsd
    unfold triggerShutdown
    rw [if_pos (by simp [hsd])]
  · intro hsd
    unfold triggerShutdown
    rw [if_neg (by simp [hsd])]
  · unfold triggerShutdown
    rcases Decidable.em (rb.shutdown = true) with hs | hs
    · rw [if_neg (by simp [hs])]
      exact hs
    · rw [if_pos (by simpa using hs)]
  · intro rb' h
    obtain ⟨d, sz, hd, tl, c, sd, p, co⟩ := rb'
    simp only at h
    subst h
    refine ⟨?_, rfl, rfl⟩
    unfold triggerShutdown
    rw [if_neg (by simp)]

theorem triggerShutdown_idempotent_witness :
    triggerShutdown (RingBuffer.mk #[0] 1 0 0 0 false 0 0) =
      (RingBuffer.mk #[0] 1 0 0 0 true 0 0,
        [WakeOp.broadcastNotEmpty, WakeOp.broadcastNotFull]) :=
  (triggerShutdown_idempotent (RingBuffer.mk #[0] 1 0 0 0 false 0 0)).1 rfl

/-- Claim C7: No lost or duplicated items.  For every serialized run of
interleaved Put, Take and shutdown-trigger operations starting from
initialization, once the buffer has been drained to `count = 0`, the
multiset of values returned by successful Takes equals the multiset of
values accepted by successful Puts. -/
theorem no_lost_or_duplicated_items (size : Nat) (mem : Array Int)
    (ops : List Op) (rb' : RingBuffer) (ps ts : List Int)
    (hm : mem.size = size) (hpos : 0 < size) (hbound : size < 2 ^ 31)
    (hrun : run (rb_init size mem) ops = some (rb', ps, ts))
    (hdrained : rb'.count = 0) :
    (ps : Multiset Int) = (ts : Multiset Int) := by
  obtain ⟨hwf', heq⟩ := run_conserves ops (rb_init size mem) rb' ps ts
    (wf_rb_init hm hpos hbound) hrun
  rw [queueList_empty (show (rb_init size mem).count = 0 from rfl),
    queueList_empty hdrained] at heq
  simp only [List.nil_append, List.append_nil] at heq
  rw [heq]

theorem no_lost_or_duplicated_items_witness :
    (([5, 6] : List Int) : Multiset Int) = (([5, 6] : List Int) : Multiset Int) :=
  no_lost_or_duplicated_items 2 #[0, 0]
    [Op.put 5, Op.put 6, Op.trigger, Op.take, Op.take]
    (RingBuffer.mk #[5, 6] 2 0 0 0 true 2 2) [5, 6] [5, 6]
    rfl (by decide) (by decide) (by decide) rfl

/-- Claim C8: The producer's value sequence is the increasing counter
1, 2, 3, ... — after `n` successful Puts the next value sent is `n + 1`,
for every `n` below the `int` limit.  However, the source increments a
plain C `int` with no saturation or wrap handling, so at
`value = INT_MAX` (after `2^31 - 2` successful Puts) the increment
`value++` is undefined behavior: the embedded counter reaches the
undefined (`none`) branch rather than a defined saturate or wrap. -/
theorem producer_value_sequence_overflow :
    (∀ n : Nat, n ≤ 2 ^ 31 - 2 → producerValueAfter n = some ((n : Int) + 1)) ∧
    producerValueAfter (2 ^ 31 - 1) = none :=
  ⟨fun _ h => producerValueAfter_closed h, producerValueAfter_overflow⟩

theorem producer_value_sequence_overflow_witness :
    producerValueAfter 4 = some 5 ∧ producerValueAfter (2 ^ 31 - 1) = none :=
  ⟨producer_value_sequence_overflow.1 4 (by norm_num),
    producer_value_sequence_overflow.2⟩

/-- Claim C9 (counterexample): the final report of `main` (lines
282-285) is not produced from a lock-protected read — the summary block
performs no mutex operation at all, so in particular it does not hold
the buffer's lock while reading the triple. -/
theorem mainFinalReport_no_lock_taken :
    MutexOp.lock ∉ (mainFinalReport (RingBuffer.mk #[0] 1 0 0 0 true 0 0)).2.2 := by
  decide

/-- Claim C9 (amended): the final report reads the triple
`(produced_total, consumed_total, count)` directly from the buffer,
modifies no buffer state, and takes no lock — it runs after every task
has been joined, not under the buffer's lock. -/
theorem mainFinalReport_reads_triple (rb : RingBuffer) :
    mainFinalReport rb =
      ((rb.produced_total, rb.consumed_total, rb.count), rb,
        ([] : List MutexOp)) := rfl

